import Mathlib

/-!
Verification of the block core (`core/src/blocks/block.rs`): the block-type
registry, the execution environment and its serialization, the `${NAME.KEY}`
variable scanner and the variable-resolution engine, and the multiline
fragment extraction of `parse_pair`.

Strings are modelled as their lists of Unicode scalar characters
(`String.data`), JSON values by an explicit inductive type, and the fallible
Rust functions return `Except`.  Recursions over text carry an explicit fuel
argument equal to the text length so that every definition is structurally
recursive and executable by the kernel.
-/

namespace DustBlock

/-- The character class of the regex fragment `[A-Z0-9_]` (the NAME part of
`${NAME.KEY}` in `find_variables`). -/
def isNameChar (c : Char) : Bool :=
  ('A' ≤ c && c ≤ 'Z') || ('0' ≤ c && c ≤ '9') || c == '_'

/-- The character class of the regex fragment `[a-zA-Z0-9_\.]` (the KEY part of
`${NAME.KEY}` in `find_variables`). -/
def isKeyChar (c : Char) : Bool :=
  ('a' ≤ c && c ≤ 'z') || ('A' ≤ c && c ≤ 'Z') || ('0' ≤ c && c ≤ '9') || c == '_' || c == '.'

/-- One attempt of the regex `\$\{(?P<name>[A-Z0-9_]+)\.(?P<key>[a-zA-Z0-9_\.]+)\}`
at the front of `cs`: on a match, the captured name and key and the remaining
text after the match.  The `+` classes are matched by their maximal runs: the
character after a maximal run can never be the forced delimiter again, so no
backtracking is possible and the greedy run is exact. -/
def matchVarAt : List Char → Option (String × String × List Char)
  | c1 :: c2 :: r0 =>
    if c1 = '$' ∧ c2 = '{' then
      match r0.dropWhile isNameChar with
      | c3 :: r2 =>
        if c3 = '.' ∧ r0.takeWhile isNameChar ≠ [] then
          match r2.dropWhile isKeyChar with
          | c4 :: r4 =>
            if c4 = '}' ∧ r2.takeWhile isKeyChar ≠ [] then
              some (⟨r0.takeWhile isNameChar⟩, ⟨r2.takeWhile isKeyChar⟩, r4)
            else none
          | [] => none
        else none
      | [] => none
    else none
  | _ => none

/-- The capture iterator of `find_variables`: try the pattern at each
position from the left; after a match, continue at the end of the match.
`fuel` bounds the recursion and is taken to be the text length. -/
def findVarsAux : Nat → List Char → List (String × String)
  | 0, _ => []
  | _ + 1, [] => []
  | fuel + 1, c :: cs =>
    match matchVarAt (c :: cs) with
    | some (n, k, rest) => (n, k) :: findVarsAux fuel rest
    | none => findVarsAux fuel cs

/-- `find_variables`: all `${NAME.KEY}` matches of the text, in order of
occurrence, as (name, key) pairs. -/
def find_variables (text : String) : List (String × String) :=
  findVarsAux text.data.length text.data

/-- `pat` is a prefix of `cs` (Rust pattern matching at the front of a
string slice). -/
def leadsWith : List Char → List Char → Bool
  | [], _ => true
  | _ :: _, [] => false
  | p :: ps, c :: cs => p == c && leadsWith ps cs

/-- Rust `str::replace` for a nonempty needle: scan left to right; at an
occurrence of `pat`, emit `repl` and continue after the occurrence (the
replacement is never itself rescanned); otherwise keep one character.  The
needle used by the resolution engine is a `${NAME.KEY}` token and is never
empty; an empty `pat` is treated as matching nowhere.  `fuel` bounds the
recursion and is taken to be the text length. -/
def replaceAux : Nat → List Char → List Char → List Char → List Char
  | 0, _, _, cs => cs
  | fuel + 1, pat, repl, cs =>
    match cs with
    | [] => []
    | c :: cs' =>
      if pat ≠ [] ∧ leadsWith pat cs = true then
        repl ++ replaceAux fuel pat repl (cs.drop pat.length)
      else
        c :: replaceAux fuel pat repl cs'

/-- `result.replace(pat, repl)` of the resolution engine. -/
def str_replace (s pat repl : String) : String :=
  ⟨replaceAux s.data.length pat.data repl.data s.data⟩

/-- `serde_json::Value`. -/
inductive Json where
  | null : Json
  | bool (b : Bool) : Json
  | num (n : Int) : Json
  | str (s : String) : Json
  | arr (elems : List Json) : Json
  | obj (fields : List (String × Json)) : Json

/-- Key lookup in a JSON object / string-keyed map (`Map::get`,
`HashMap::get`). -/
def lookupJ : List (String × Json) → String → Option Json
  | [], _ => none
  | (k, v) :: rest, key => if k = key then some v else lookupJ rest key

/-- `RunConfig` (block-specific settings), as used by the block core: a map
from block identifier to JSON configuration. -/
structure RunConfig where
  blocks : List (String × Json)

/-- `InputState`: the current input record and its positional index. -/
structure InputState where
  value : Option Json
  index : Nat

/-- `MapState`: the enclosing map block's name and the current iteration. -/
structure MapState where
  name : String
  iteration : Nat

/-- `Env`: the execution environment.  The `store`, `project` and
`credentials` handles are opaque external collaborators, modelled as type
parameters; in the source they carry `#[serde(skip_serializing)]`. -/
structure Env (σ π κ : Type) where
  config : RunConfig
  state : List (String × Json)
  input : InputState
  map : Option MapState
  store : σ
  project : π
  credentials : κ

/-- The resolution errors of `replace_variables_in_string`, one constructor
per `anyhow!` message, carrying the data interpolated into the message. -/
inductive RErr where
  | blockNotFound (name : String) : RErr
  | notAnObject (name : String) (field : String) : RErr
  | keyNotPresent (key : String) (name : String) : RErr
  | notAString (name : String) (key : String) : RErr
deriving DecidableEq

/-- The per-variable validation of `replace_variables_in_string`, in source
order: the block output must exist, be an object, contain the key, and the
key's value must be a string. -/
def resolveVar (st : List (String × Json)) (field name key : String) : Except RErr String :=
  match lookupJ st name with
  | none => .error (.blockNotFound name)
  | some output =>
    match output with
    | .obj fields =>
      match lookupJ fields key with
      | none => .error (.keyNotPresent key name)
      | some v =>
        match v with
        | .str s => .ok s
        | _ => .error (.notAString name key)
    | _ => .error (.notAnObject name field)

/-- The literal token `format!("${{{}.{}}}", name, key)`. -/
def varToken (p : String × String) : String :=
  "$\x7b" ++ p.1 ++ "." ++ p.2 ++ "\x7d"

/-- One iteration of the resolution loop: validate the pair, then replace all
occurrences of its token in the accumulated result. -/
def substStep (st : List (String × Json)) (field : String) (acc : String)
    (p : String × String) : Except RErr String :=
  match resolveVar st field p.1 p.2 with
  | .error e => .error e
  | .ok v => .ok (str_replace acc (varToken p) v)

/-- `replace_variables_in_string`: find the variables of `text`, then fold the
validating substitution over them in scan order, failing on the first invalid
reference (`collect::<Result<_>>` short-circuits). -/
def replace_variables_in_string (text field : String) {σ π κ : Type}
    (env : Env σ π κ) : Except RErr String :=
  List.foldlM (substStep env.state field) text (find_variables text)

/-- The resolved string value of a valid reference (and `""` on an invalid
one, a case the theorems exclude). -/
def strValOf (st : List (String × Json)) (name key : String) : String :=
  match lookupJ st name with
  | some (.obj fields) =>
    match lookupJ fields key with
    | some (.str s) => s
    | _ => ""
  | _ => ""

/-- `state` maps `name` to an object whose `key` entry is a string. -/
def isStrEntry (st : List (String × Json)) (name key : String) : Bool :=
  match lookupJ st name with
  | some (.obj fields) =>
    match lookupJ fields key with
    | some (.str _) => true
    | _ => false
  | _ => false

/-- One substitution, without the validation outcome: replace all occurrences
of the pair's token by its resolved value. -/
def pureStep (st : List (String × Json)) (acc : String) (p : String × String) : String :=
  str_replace acc (varToken p) (strValOf st p.1 p.2)

/-- `ParseError`, a typed parse error carrying a message
(`ParseError::with_message`). -/
structure ParseError where
  message : String
deriving DecidableEq

/-- `ParseError::with_message`. -/
def ParseError.with_message (m : String) : ParseError := ⟨m⟩

/-- `BlockType`: the closed set of block kinds. -/
inductive BlockType where
  | Input : BlockType
  | Data : BlockType
  | Code : BlockType
  | LLM : BlockType
  | Map : BlockType
  | Reduce : BlockType
  | Search : BlockType
  | Curl : BlockType
  | Browser : BlockType
deriving DecidableEq

/-- `impl ToString for BlockType`: the canonical lowercase identifier. -/
def BlockType.toString : BlockType → String
  | .Input => "input"
  | .Data => "data"
  | .Code => "code"
  | .LLM => "llm"
  | .Map => "map"
  | .Reduce => "reduce"
  | .Search => "search"
  | .Curl => "curl"
  | .Browser => "browser"

/-- `impl FromStr for BlockType`: parse an identifier, failing with
`ParseError::with_message("Unknown BlockType")` on anything outside the
closed set. -/
def BlockType.from_str (s : String) : Except ParseError BlockType :=
  if s = "input" then .ok .Input
  else if s = "data" then .ok .Data
  else if s = "code" then .ok .Code
  else if s = "llm" then .ok .LLM
  else if s = "map" then .ok .Map
  else if s = "reduce" then .ok .Reduce
  else if s = "search" then .ok .Search
  else if s = "curl" then .ok .Curl
  else if s = "browser" then .ok .Browser
  else .error (ParseError.with_message "Unknown BlockType")

/-- The nine canonical block-kind identifiers. -/
def canonicalIds : List String :=
  ["input", "data", "code", "llm", "map", "reduce", "search", "curl", "browser"]

/-- Serialization of `RunConfig` (its one field, `blocks`). -/
def serializeRunConfig (c : RunConfig) : Json :=
  .obj [("blocks", .obj c.blocks)]

/-- Serialization of `InputState` (derived `Serialize`: both fields, an
absent value as JSON null). -/
def serializeInputState (i : InputState) : Json :=
  .obj [("value", match i.value with | none => .null | some v => v),
        ("index", .num i.index)]

/-- Serialization of `MapState` (derived `Serialize`). -/
def serializeMapState (m : MapState) : Json :=
  .obj [("name", .str m.name), ("iteration", .num m.iteration)]

/-- Modelled from the spec: the serde-derived serialization of `Env` (the
serializer itself lives outside the repository's files).  The derive emits the
fields in declaration order and honours `#[serde(skip_serializing)]` on
`store`, `project` and `credentials`, so exactly `config`, `state`, `input`
and `map` appear; an absent `map` serializes as JSON null. -/
def serializeEnv {σ π κ : Type} (e : Env σ π κ) : Json :=
  .obj [("config", serializeRunConfig e.config),
        ("state", .obj e.state),
        ("input", serializeInputState e.input),
        ("map", match e.map with | none => .null | some m => serializeMapState m)]

/-- The field names of a serialized JSON object. -/
def jsonKeys : Json → List String
  | .obj fields => fields.map Prod.fst
  | _ => []

/-- The outcome of the `Rule::multiline` arm of `parse_pair`. -/
inductive MLResult where
  | ok (v : String) : MLResult
  | err : MLResult
  | panic : MLResult
deriving DecidableEq

/-- The `Rule::multiline` arm of `parse_pair` on the fragment's characters:
index `chars[chars.len() - 4]` must be a newline (otherwise the
"Multine values are expected to end with '\n```'" error), and the value is
`chars.iter().skip(4).take(chars.len() - 8)`.  Both `len - 4` (as an index)
and `len - 8` are `usize` subtractions: on a fragment shorter than the
subtrahend the Rust program is in error (an out-of-bounds index, or an
arithmetic underflow that panics under debug assertions), modelled as
`panic`. -/
def parseMultilineChars (chars : List Char) : MLResult :=
  if chars.length < 4 then .panic
  else if chars[chars.length - 4]? ≠ some '\n' then .err
  else if chars.length < 8 then .panic
  else .ok ⟨(chars.drop 4).take (chars.length - 8)⟩

/-- The `Rule::multiline` arm of `parse_pair` on a fragment string. -/
def parseMultiline (s : String) : MLResult :=
  parseMultilineChars s.data

/-- Spec side, following the spec's words: a `${NAME.KEY}` match at the front
of the text, where NAME matches `[A-Z0-9_]+` and KEY matches
`[a-zA-Z0-9_.]+` (a dotted key is one flat key). -/
def specMatchToken : List Char → Option (String × String)
  | c1 :: c2 :: r0 =>
    if c1 = '$' ∧ c2 = '{' then
      match r0.dropWhile isNameChar with
      | c3 :: r2 =>
        if c3 = '.' ∧ r0.takeWhile isNameChar ≠ [] then
          match r2.dropWhile isKeyChar with
          | c4 :: _ =>
            if c4 = '}' ∧ r2.takeWhile isKeyChar ≠ [] then
              some (⟨r0.takeWhile isNameChar⟩, ⟨r2.takeWhile isKeyChar⟩)
            else none
          | [] => none
        else none
      | [] => none
    else none
  | _ => none

/-- Spec side, following the spec's words: collect the match at every
position of the text where one starts, in order of first appearance
(duplicate pairs kept once per occurrence). -/
def specFindVariables (text : String) : List (String × String) :=
  (List.range text.data.length).filterMap (fun i => specMatchToken (text.data.drop i))

/-- Spec side, following the claim's words: the simultaneous replacement of
every matched `${NAME.KEY}` token of the original text by its resolved
value, in one left-to-right pass in which a resolved value is never itself
re-scanned or re-substituted. -/
def simulAux : Nat → List (String × Json) → List Char → List Char
  | 0, _, cs => cs
  | _ + 1, _, [] => []
  | fuel + 1, st, c :: cs =>
    match matchVarAt (c :: cs) with
    | some (n, k, rest) =>
      if isStrEntry st n k then (strValOf st n k).data ++ simulAux fuel st rest
      else c :: simulAux fuel st cs
    | none => c :: simulAux fuel st cs

/-- Spec side: simultaneous one-pass substitution over a whole string. -/
def simultaneousReplace (text : String) (st : List (String × Json)) : String :=
  ⟨simulAux text.data.length st text.data⟩

/-! ### Concrete environments used by the witnesses and examples -/

/-- The environment of the repository's `replace_variables_in_string_test`. -/
def exEnv : Env Unit Unit Unit where
  config := ⟨[]⟩
  state := [("RETRIEVE", .obj [("question", .str "What is your name?")]),
            ("DATA", .obj [("answer", .str "John")])]
  input := ⟨some (.obj [("question", .str "Who is it?")]), 0⟩
  map := none
  store := ()
  project := ()
  credentials := ()

/-- The text of the repository's `replace_variables_in_string_test`. -/
def exText : String := "QUESTION: $\x7bRETRIEVE.question\x7d ANSWER: $\x7bDATA.answer\x7d"

/-- An environment whose state holds entries of every JSON shape, exercising
each resolution error. -/
def mixEnv : Env Unit Unit Unit where
  config := ⟨[]⟩
  state := [("A", .obj [("b", .str "x"), ("n", .num 3), ("t", .bool true),
                        ("l", .arr [.num 1]), ("o", .obj []), ("z", .null)]),
            ("S", .str "zzz")]
  input := ⟨none, 0⟩
  map := none
  store := ()
  project := ()
  credentials := ()

/-- An environment in which one resolved value is itself a `${NAME.KEY}`
token of another matched pair. -/
def chainEnv : Env Unit Unit Unit where
  config := ⟨[]⟩
  state := [("A", .obj [("b", .str "$\x7bC.d\x7d")]),
            ("C", .obj [("d", .str "x")])]
  input := ⟨none, 0⟩
  map := none
  store := ()
  project := ()
  credentials := ()

/-- The text of the chained-substitution counterexample. -/
def chainText : String := "$\x7bA.b\x7d $\x7bC.d\x7d"

/-- Two environments that agree on the serialized fields and differ in every
withheld handle. -/
def handleEnvA : Env Nat Nat Nat where
  config := ⟨[("B1", .str "cfg")]⟩
  state := [("X", .obj [("y", .str "v")])]
  input := ⟨some (.str "q"), 2⟩
  map := some ⟨"M", 5⟩
  store := 0
  project := 1
  credentials := 2

/-- See `handleEnvA`: same data, different handles. -/
def handleEnvB : Env Nat Nat Nat where
  config := ⟨[("B1", .str "cfg")]⟩
  state := [("X", .obj [("y", .str "v")])]
  input := ⟨some (.str "q"), 2⟩
  map := some ⟨"M", 5⟩
  store := 7
  project := 8
  credentials := 9

deriving instance DecidableEq for Except

/-! ### Helper lemmas about the resolution fold -/

theorem exbind_error {ε α β : Type} (e : ε) (g : α → Except ε β) :
    (Except.error e >>= g) = Except.error e := rfl

theorem exbind_ok {ε α β : Type} (a : α) (g : α → Except ε β) :
    (Except.ok a >>= g) = g a := rfl

theorem resolveVar_ok_strVal {st : List (String × Json)} {f n k s : String}
    (h : resolveVar st f n k = .ok s) : strValOf st n k = s := by
  unfold resolveVar at h
  unfold strValOf
  cases hl : lookupJ st n with
  | none => rw [hl] at h; simp at h
  | some v =>
    rw [hl] at h
    cases v with
    | obj fields =>
      simp only at h
      cases hf : lookupJ fields k with
      | none => rw [hf] at h; simp at h
      | some w =>
        rw [hf] at h
        cases w <;> simp_all
    | null => simp at h
    | bool b => simp at h
    | num m => simp at h
    | str s2 => simp at h
    | arr es => simp at h

theorem isStrEntry_resolveVar {st : List (String × Json)} {n k : String}
    (h : isStrEntry st n k = true) (f : String) :
    resolveVar st f n k = .ok (strValOf st n k) := by
  unfold isStrEntry at h
  unfold resolveVar strValOf
  cases hl : lookupJ st n with
  | none => rw [hl] at h; simp at h
  | some v =>
    rw [hl] at h
    cases v with
    | obj fields =>
      simp only at h
      cases hf : lookupJ fields k with
      | none => rw [hf] at h; simp at h
      | some w =>
        rw [hf] at h
        cases w <;> simp_all
    | null => simp at h
    | bool b => simp at h
    | num m => simp at h
    | str s2 => simp at h
    | arr es => simp at h

theorem substStep_ok {st : List (String × Json)} {f n k s : String}
    (h : resolveVar st f n k = .ok s) (acc : String) :
    substStep st f acc (n, k) = .ok (pureStep st acc (n, k)) := by
  unfold substStep pureStep
  rw [h, resolveVar_ok_strVal h]

theorem foldlM_all_ok (st : List (String × Json)) (f : String) :
    ∀ (l : List (String × String)) (acc : String),
      (∀ p ∈ l, ∃ s, resolveVar st f p.1 p.2 = .ok s) →
      List.foldlM (substStep st f) acc l = .ok (List.foldl (pureStep st) acc l) := by
  intro l
  induction l with
  | nil => intro acc _; rfl
  | cons p l ih =>
    intro acc h
    obtain ⟨s, hs⟩ := h p (by simp)
    rw [List.foldlM_cons, List.foldl_cons]
    rw [show substStep st f acc p = .ok (pureStep st acc p) from substStep_ok hs acc]
    rw [exbind_ok]
    exact ih _ (fun q hq => h q (List.mem_cons_of_mem p hq))

theorem foldlM_err_iff (st : List (String × Json)) (f : String) :
    ∀ (l : List (String × String)) (acc : String),
      (∃ e, List.foldlM (substStep st f) acc l = .error e) ↔
      (∃ p ∈ l, ∃ e, resolveVar st f p.1 p.2 = .error e) := by
  intro l
  induction l with
  | nil => intro acc; simp [List.foldlM_nil, pure, Except.pure]
  | cons p l ih =>
    intro acc
    rw [List.foldlM_cons]
    cases hr : resolveVar st f p.1 p.2 with
    | error e =>
      have hstep : substStep st f acc p = .error e := by unfold substStep; rw [hr]
      rw [hstep, exbind_error]
      constructor
      · intro _; exact ⟨p, by simp, e, hr⟩
      · intro _; exact ⟨e, rfl⟩
    | ok s =>
      have hstep : substStep st f acc p = .ok (pureStep st acc p) := substStep_ok hr acc
      rw [hstep, exbind_ok]
      rw [ih]
      constructor
      · intro ⟨q, hq, hqe⟩; exact ⟨q, List.mem_cons_of_mem p hq, hqe⟩
      · intro ⟨q, hq, e, hqe⟩
        rcases List.mem_cons.mp hq with hq0 | hq1
        · subst hq0; rw [hr] at hqe; cases hqe
        · exact ⟨q, hq1, e, hqe⟩

theorem foldlM_first_err (st : List (String × Json)) (f : String) :
    ∀ (l₁ : List (String × String)) (p : String × String) (l₂ : List (String × String))
      (acc : String) (e : RErr),
      (∀ q ∈ l₁, ∃ s, resolveVar st f q.1 q.2 = .ok s) →
      resolveVar st f p.1 p.2 = .error e →
      List.foldlM (substStep st f) acc (l₁ ++ p :: l₂) = .error e := by
  intro l₁
  induction l₁ with
  | nil =>
    intro p l₂ acc e _ hp
    rw [List.nil_append, List.foldlM_cons]
    have hstep : substStep st f acc p = .error e := by unfold substStep; rw [hp]
    rw [hstep, exbind_error]
  | cons q l₁ ih =>
    intro p l₂ acc e h1 hp
    obtain ⟨s, hs⟩ := h1 q (by simp)
    rw [List.cons_append, List.foldlM_cons]
    rw [substStep_ok hs acc, exbind_ok]
    exact ih p l₂ _ e (fun q' hq' => h1 q' (List.mem_cons_of_mem q hq')) hp

theorem foldlM_ok_val (st : List (String × Json)) (f : String) :
    ∀ (l : List (String × String)) (acc r : String),
      List.foldlM (substStep st f) acc l = .ok r →
      r = List.foldl (pureStep st) acc l := by
  intro l
  induction l with
  | nil => intro acc r h; cases h; rfl
  | cons p l ih =>
    intro acc r h
    rw [List.foldlM_cons] at h
    cases hr : resolveVar st f p.1 p.2 with
    | error e =>
      have hstep : substStep st f acc p = .error e := by unfold substStep; rw [hr]
      rw [hstep, exbind_error] at h
      cases h
    | ok s =>
      rw [substStep_ok hr acc, exbind_ok] at h
      rw [List.foldl_cons]
      exact ih _ r h

/-! ### The claims -/

/-- C1: whenever the environment's state maps each referenced NAME to an
object whose KEY entry is a string, `replace_variables_in_string` succeeds,
and its result replaces, pair after pair in scan order, every literal
occurrence of each matched `${NAME.KEY}` token with the resolved string
value; on the repository's own test input the result is
"QUESTION: What is your name? ANSWER: John", and a twice-occurring token is
replaced at both occurrences in one pass. -/
theorem replace_variables_success (text field : String) (σ π κ : Type) (env : Env σ π κ)
    (h : ∀ p ∈ find_variables text, isStrEntry env.state p.1 p.2 = true) :
    replace_variables_in_string text field env =
      Except.ok (List.foldl (pureStep env.state) text (find_variables text))
    ∧ replace_variables_in_string exText "foo" exEnv =
      Except.ok "QUESTION: What is your name? ANSWER: John"
    ∧ replace_variables_in_string "QQ $\x7bA.b\x7d $\x7bA.b\x7d" "f" mixEnv =
      Except.ok "QQ x x" := by
  refine ⟨?_, by decide, by decide⟩
  unfold replace_variables_in_string
  apply foldlM_all_ok
  intro p hp
  exact ⟨strValOf env.state p.1 p.2, isStrEntry_resolveVar (h p hp) field⟩

/-- Witness for C1: the hypotheses hold at the repository's own test input. -/
theorem replace_variables_success_witness :
    replace_variables_in_string exText "foo" exEnv =
      Except.ok (List.foldl (pureStep exEnv.state) exText (find_variables exText))
    ∧ replace_variables_in_string exText "foo" exEnv =
      Except.ok "QUESTION: What is your name? ANSWER: John"
    ∧ replace_variables_in_string "QQ $\x7bA.b\x7d $\x7bA.b\x7d" "f" mixEnv =
      Except.ok "QQ x x" :=
  replace_variables_success exText "foo" Unit Unit Unit exEnv (by decide)

/-- C2: `replace_variables_in_string` fails exactly when some matched
reference is invalid, and each invalid reference produces the specified
error: absent NAME a "not found" error, non-object NAME an "is not an
object" error, missing KEY a "not present" error, and a non-string KEY
value (numeric, boolean, array, object or null) an "is not a string" error
— never a silent default. -/
theorem replace_variables_error_cases :
    (∀ (text field : String) (σ π κ : Type) (env : Env σ π κ),
        (∃ e, replace_variables_in_string text field env = .error e) ↔
        ∃ p ∈ find_variables text, ∃ e, resolveVar env.state field p.1 p.2 = .error e)
    ∧ (∀ (st : List (String × Json)) (f n k : String),
        lookupJ st n = none → resolveVar st f n k = .error (.blockNotFound n))
    ∧ (∀ (st : List (String × Json)) (f n k : String) (v : Json),
        lookupJ st n = some v → (∀ o, v ≠ Json.obj o) →
        resolveVar st f n k = .error (.notAnObject n f))
    ∧ (∀ (st : List (String × Json)) (f n k : String) (o : List (String × Json)),
        lookupJ st n = some (Json.obj o) → lookupJ o k = none →
        resolveVar st f n k = .error (.keyNotPresent k n))
    ∧ (∀ (st : List (String × Json)) (f n k : String) (o : List (String × Json)) (v : Json),
        lookupJ st n = some (Json.obj o) → lookupJ o k = some v →
        (∀ s, v ≠ Json.str s) →
        resolveVar st f n k = .error (.notAString n k))
    ∧ replace_variables_in_string "$\x7bB.x\x7d" "tmpl" mixEnv =
        .error (.blockNotFound "B")
    ∧ replace_variables_in_string "$\x7bS.k\x7d" "tmpl" mixEnv =
        .error (.notAnObject "S" "tmpl")
    ∧ replace_variables_in_string "$\x7bA.c\x7d" "tmpl" mixEnv =
        .error (.keyNotPresent "c" "A")
    ∧ replace_variables_in_string "$\x7bA.n\x7d" "tmpl" mixEnv =
        .error (.notAString "A" "n")
    ∧ replace_variables_in_string "$\x7bA.t\x7d" "tmpl" mixEnv =
        .error (.notAString "A" "t")
    ∧ replace_variables_in_string "$\x7bA.l\x7d" "tmpl" mixEnv =
        .error (.notAString "A" "l")
    ∧ replace_variables_in_string "$\x7bA.o\x7d" "tmpl" mixEnv =
        .error (.notAString "A" "o")
    ∧ replace_variables_in_string "$\x7bA.z\x7d" "tmpl" mixEnv =
        .error (.notAString "A" "z") := by
  refine ⟨?_, ?_, ?_, ?_, ?_, by decide, by decide, by decide, by decide, by decide,
    by decide, by decide, by decide⟩
  · intro text field σ π κ env
    unfold replace_variables_in_string
    exact foldlM_err_iff env.state field (find_variables text) text
  · intro st f n k h
    unfold resolveVar
    rw [h]
  · intro st f n k v hv hno
    unfold resolveVar
    rw [hv]
    cases v with
    | obj o => exact absurd rfl (hno o)
    | null => simp
    | bool b => simp
    | num m => simp
    | str s => simp
    | arr es => simp
  · intro st f n k o h1 h2
    unfold resolveVar
    rw [h1]
    simp only
    rw [h2]
  · intro st f n k o v h1 h2 hns
    unfold resolveVar
    rw [h1]
    simp only
    rw [h2]
    cases v with
    | str s => exact absurd rfl (hns s)
    | null => simp
    | bool b => simp
    | num m => simp
    | obj o2 => simp
    | arr es => simp

/-- C3: when the text contains an invalid reference, the outcome is the
error of the first invalid reference in scan order — every earlier pair
resolving, the fold aborts at the failing pair, no string is returned, and
the result is this one error. -/
theorem replace_variables_first_error (text field : String) (σ π κ : Type) (env : Env σ π κ)
    (l₁ l₂ : List (String × String)) (p : String × String) (e : RErr)
    (hv : find_variables text = l₁ ++ p :: l₂)
    (h1 : ∀ q ∈ l₁, ∃ s, resolveVar env.state field q.1 q.2 = Except.ok s)
    (hp : resolveVar env.state field p.1 p.2 = Except.error e) :
    replace_variables_in_string text field env = Except.error e := by
  unfold replace_variables_in_string
  rw [hv]
  exact foldlM_first_err env.state field l₁ p l₂ text e h1 hp

/-- Witness for C3: with `A.b` valid and both `B.c` and `C.d` unresolvable,
the error is the one of `B`, the first invalid reference in scan order. -/
theorem replace_variables_first_error_witness :
    replace_variables_in_string "$\x7bA.b\x7d $\x7bB.c\x7d $\x7bC.d\x7d" "f" mixEnv =
      Except.error (RErr.blockNotFound "B") :=
  replace_variables_first_error "$\x7bA.b\x7d $\x7bB.c\x7d $\x7bC.d\x7d" "f"
    Unit Unit Unit mixEnv [("A", "b")] [("C", "d")] ("B", "c") (RErr.blockNotFound "B")
    (by decide)
    (by intro q hq
        rw [List.mem_singleton] at hq
        subst hq
        exact ⟨"x", by decide⟩)
    (by decide)

/-- Counterexample for C6: with `A.b` resolving to the literal token
`${C.d}` and `C.d` resolving to `x`, the code yields "x x" on
"${A.b} ${C.d}" — the resolved value of `A.b` was re-substituted by the
later pair — while the simultaneous replacement of the original tokens
yields "${C.d} x", as does processing the pairs in the opposite order. -/
theorem substitution_interaction_cex :
    replace_variables_in_string chainText "f" chainEnv = Except.ok "x x"
    ∧ simultaneousReplace chainText chainEnv.state = "$\x7bC.d\x7d x"
    ∧ find_variables chainText = [("A", "b"), ("C", "d")]
    ∧ List.foldl (pureStep chainEnv.state) chainText [("C", "d"), ("A", "b")] =
        "$\x7bC.d\x7d x"
    ∧ ("x x" : String) ≠ "$\x7bC.d\x7d x" :=
  ⟨by decide, by decide, by decide, by decide, by decide⟩

/-- C6 as amended: substitutions are applied sequentially in
`find_variables` scan order to the accumulated string, so a resolved value
containing another matched token is itself re-substituted by later
replacements; every successful result equals this left-to-right fold of
literal replacements, not an order-independent simultaneous replacement. -/
theorem replace_variables_sequential (text field : String) (σ π κ : Type) (env : Env σ π κ)
    (r : String) (h : replace_variables_in_string text field env = Except.ok r) :
    r = List.foldl (pureStep env.state) text (find_variables text) := by
  unfold replace_variables_in_string at h
  exact foldlM_ok_val env.state field (find_variables text) text r h

/-- Witness for C6: the fold characterization at the chained-substitution
input. -/
theorem replace_variables_sequential_witness :
    ("x x" : String) = List.foldl (pureStep chainEnv.state) chainText (find_variables chainText) :=
  replace_variables_sequential chainText "f" Unit Unit Unit chainEnv "x x" (by decide)

/-- C7: converting any `BlockType` to its canonical lowercase identifier and
parsing it back returns the same variant. -/
theorem block_type_roundtrip :
    ∀ k : BlockType, BlockType.from_str (BlockType.toString k) = Except.ok k := by
  intro k
  cases k <;> rfl

/-- C8: `BlockType.from_str` succeeds exactly on the nine canonical
identifiers and returns the typed parse error "Unknown BlockType" on every
other string, for example "foo". -/
theorem block_type_from_str_domain :
    (∀ s : String, (∃ k, BlockType.from_str s = Except.ok k) ↔ s ∈ canonicalIds)
    ∧ (∀ s : String, s ∉ canonicalIds →
        BlockType.from_str s = Except.error (ParseError.with_message "Unknown BlockType"))
    ∧ BlockType.from_str "foo" = Except.error (ParseError.with_message "Unknown BlockType") := by
  refine ⟨?_, ?_, by decide⟩
  · intro s
    unfold BlockType.from_str
    split_ifs with h1 h2 h3 h4 h5 h6 h7 h8 h9 <;> simp_all [canonicalIds]
  · intro s hs
    unfold BlockType.from_str
    split_ifs with h1 h2 h3 h4 h5 h6 h7 h8 h9 <;> simp_all [canonicalIds]

/-- C9: the serialization of an `Env` is computed from `config`, `state`,
`input` and `map` alone — two environments agreeing on those four fields
serialize identically whatever their `store`, `project` and `credentials`
— and its object holds exactly those four keys, never the withheld
handles. -/
theorem env_serialization_hides_handles (σ π κ : Type) (e1 e2 : Env σ π κ)
    (hc : e1.config = e2.config) (hs : e1.state = e2.state)
    (hi : e1.input = e2.input) (hm : e1.map = e2.map) :
    serializeEnv e1 = serializeEnv e2
    ∧ jsonKeys (serializeEnv e1) = ["config", "state", "input", "map"] := by
  constructor
  · unfold serializeEnv
    rw [hc, hs, hi, hm]
  · rfl

/-- Witness for C9: two concrete environments with equal data fields and
different store/project/credentials handles serialize identically. -/
theorem env_serialization_hides_handles_witness :
    serializeEnv handleEnvA = serializeEnv handleEnvB
    ∧ jsonKeys (serializeEnv handleEnvA) = ["config", "state", "input", "map"] :=
  env_serialization_hides_handles Nat Nat Nat handleEnvA handleEnvB rfl rfl rfl rfl

/-- Counterexample for C5: the multiline fragment between triple-backtick
fences around "hello\nworld\n" extracts the value "hello\nworld" — the
final newline, part of the content strictly between the first newline and
the close fence, is not included, contradicting the claimed value
"hello\nworld\n". -/
theorem multiline_trailing_newline_cex :
    parseMultiline "```\nhello\nworld\n```" = MLResult.ok "hello\nworld"
    ∧ parseMultiline "```\nhello\nworld\n```" ≠ MLResult.ok "hello\nworld\n" :=
  ⟨by decide, by decide⟩

/-- C5 as amended: on a well-fenced multiline fragment the extracted value
is the content strictly between the first newline after the open fence and
the final newline preceding the close fence (that final newline excluded);
in particular the hello/world fragment parses to "hello\nworld", and a
fragment whose close fence is not preceded by a newline fails with a parse
error rather than producing a truncated value. -/
theorem multiline_value_extraction :
    (∀ content : List Char,
        parseMultilineChars
          ('`' :: '`' :: '`' :: '\n' :: (content ++ '\n' :: '`' :: '`' :: '`' :: [])) =
          MLResult.ok ⟨content⟩)
    ∧ (∀ cs : List Char, 4 ≤ cs.length → cs[cs.length - 4]? ≠ some '\n' →
        parseMultilineChars cs = MLResult.err)
    ∧ parseMultiline "```\nhello\nworld\n```" = MLResult.ok "hello\nworld"
    ∧ parseMultiline "```\nabc```" = MLResult.err := by
  refine ⟨?_, ?_, by decide, by decide⟩
  · intro content
    unfold parseMultilineChars
    set L := '`' :: '`' :: '`' :: '\n' :: (content ++ '\n' :: '`' :: '`' :: '`' :: []) with hLdef
    have hlen : L.length = content.length + 8 := by simp [hLdef]
    have hL2 : L = ('`' :: '`' :: '`' :: '\n' :: content) ++ ('\n' :: '`' :: '`' :: '`' :: []) := by
      simp [hLdef]
    have hidx : L[L.length - 4]? = some '\n' := by
      rw [hlen, hL2,
        show content.length + 8 - 4 = ('`' :: '`' :: '`' :: '\n' :: content).length from by
          simp]
      rw [List.getElem?_append_right (Nat.le_refl _)]
      simp
    rw [if_neg (show ¬ L.length < 4 from by rw [hlen]; omega)]
    rw [if_neg (show ¬ L[L.length - 4]? ≠ some '\n' from fun hc => hc hidx)]
    rw [if_neg (show ¬ L.length < 8 from by rw [hlen]; omega)]
    rw [hlen, show content.length + 8 - 8 = content.length from by omega]
    have hdrop : L.drop 4 = content ++ '\n' :: '`' :: '`' :: '`' :: [] := rfl
    rw [hdrop, List.take_left' rfl]
  · intro cs h4 hne
    unfold parseMultilineChars
    rw [if_neg (by omega), if_pos hne]

/-- C10 is a genuine defect: on the minimal well-fenced empty fragment,
seven characters long, the newline check passes and the `usize`
subtraction `chars.len() - 8` underflows — a panic under debug assertions
(and a wrap to a huge `take` bound in release builds) — instead of
extracting the empty value. -/
theorem multiline_empty_fragment_underflow :
    parseMultiline "```\n```" = MLResult.panic
    ∧ parseMultiline "```\n```" ≠ MLResult.ok "" :=
  ⟨by decide, by decide⟩

/-! ### The variable scanner against the spec-side description -/

theorem nameChar_ne_dollar {c : Char} (h : isNameChar c = true) : c ≠ '$' := by
  intro hc
  subst hc
  exact absurd h (by decide)

theorem keyChar_ne_dollar {c : Char} (h : isKeyChar c = true) : c ≠ '$' := by
  intro hc
  subst hc
  exact absurd h (by decide)

theorem specMatchToken_not_dollar {c : Char} (h : c ≠ '$') (cs : List Char) :
    specMatchToken (c :: cs) = none := by
  cases cs with
  | nil => rfl
  | cons c2 r =>
    simp only [specMatchToken]
    rw [if_neg (fun hh => h hh.1)]

theorem specMatchToken_eq (cs : List Char) :
    specMatchToken cs = (matchVarAt cs).map (fun r => (r.1, r.2.1)) := by
  cases cs with
  | nil => rfl
  | cons c1 t =>
    cases t with
    | nil => rfl
    | cons c2 r0 =>
      simp only [specMatchToken, matchVarAt]
      by_cases h12 : c1 = '$' ∧ c2 = '{'
      · rw [if_pos h12, if_pos h12]
        cases hd : r0.dropWhile isNameChar with
        | nil => rfl
        | cons c3 r2 =>
          simp only
          by_cases h3 : c3 = '.' ∧ r0.takeWhile isNameChar ≠ []
          · rw [if_pos h3, if_pos h3]
            cases hd2 : r2.dropWhile isKeyChar with
            | nil => rfl
            | cons c4 r4 =>
              simp only
              by_cases h4 : c4 = '}' ∧ r2.takeWhile isKeyChar ≠ []
              · rw [if_pos h4, if_pos h4]
                rfl
              · rw [if_neg h4, if_neg h4]
                rfl
          · rw [if_neg h3, if_neg h3]
            rfl
      · rw [if_neg h12, if_neg h12]
        rfl

theorem matchVarAt_some {cs : List Char} {n k : String} {rest : List Char}
    (h : matchVarAt cs = some (n, k, rest)) :
    cs = '$' :: '{' :: n.data ++ '.' :: k.data ++ '}' :: rest
    ∧ n.data ≠ [] ∧ (∀ c ∈ n.data, isNameChar c = true)
    ∧ k.data ≠ [] ∧ (∀ c ∈ k.data, isKeyChar c = true) := by
  cases cs with
  | nil => cases h
  | cons c1 t =>
    cases t with
    | nil => cases h
    | cons c2 r0 =>
      simp only [matchVarAt] at h
      by_cases h12 : c1 = '$' ∧ c2 = '{'
      · rw [if_pos h12] at h
        cases hd : r0.dropWhile isNameChar with
        | nil => rw [hd] at h; cases h
        | cons c3 r2 =>
          rw [hd] at h
          simp only at h
          by_cases h3 : c3 = '.' ∧ r0.takeWhile isNameChar ≠ []
          · rw [if_pos h3] at h
            cases hd2 : r2.dropWhile isKeyChar with
            | nil => rw [hd2] at h; cases h
            | cons c4 r4 =>
              rw [hd2] at h
              simp only at h
              by_cases h4 : c4 = '}' ∧ r2.takeWhile isKeyChar ≠ []
              · rw [if_pos h4] at h
                rw [Option.some.injEq, Prod.mk.injEq, Prod.mk.injEq] at h
                obtain ⟨hn, hk, hrest⟩ := h
                obtain ⟨hc1, hc2⟩ := h12
                obtain ⟨hc3, hne⟩ := h3
                obtain ⟨hc4, hke⟩ := h4
                subst hc1
                subst hc2
                subst hc3
                subst hc4
                subst hrest
                subst hn
                subst hk
                refine ⟨?_, hne, ?_, hke, ?_⟩
                · have hr0 : List.takeWhile isNameChar r0 ++ '.' :: r2 = r0 := by
                    rw [← hd]
                    exact List.takeWhile_append_dropWhile _ _
                  have hr2 : List.takeWhile isKeyChar r2 ++ '}' :: r4 = r2 := by
                    rw [← hd2]
                    exact List.takeWhile_append_dropWhile _ _
                  conv_lhs => rw [← hr0]
                  conv_lhs => rw [← hr2]
                  simp
                · intro x hx
                  exact List.mem_takeWhile_imp hx
                · intro x hx
                  exact List.mem_takeWhile_imp hx
              · rw [if_neg h4] at h
                cases h
          · rw [if_neg h3] at h
            cases h
      · rw [if_neg h12] at h
        cases h

theorem specMatchToken_inside {l rest : List Char} (hnd : ∀ c ∈ l, c ≠ '$')
    (j : Nat) (hj : j < l.length) :
    specMatchToken ((l ++ rest).drop j) = none := by
  have hj2 : j < (l ++ rest).length := by
    rw [List.length_append]
    omega
  rw [List.drop_eq_getElem_cons hj2]
  rw [List.getElem_append_left hj]
  exact specMatchToken_not_dollar (hnd _ (List.getElem_mem hj)) _

theorem findVarsAux_spec : ∀ (fuel : Nat) (cs : List Char), cs.length ≤ fuel →
    findVarsAux fuel cs =
      (List.range cs.length).filterMap (fun i => specMatchToken (cs.drop i)) := by
  intro fuel
  induction fuel with
  | zero =>
    intro cs hcs
    have hnil : cs = [] := List.length_eq_zero.mp (Nat.le_zero.mp hcs)
    subst hnil
    rfl
  | succ fuel ih =>
    intro cs hcs
    cases cs with
    | nil => rfl
    | cons c cs2 =>
      cases hm : matchVarAt (c :: cs2) with
      | none =>
        have hL : findVarsAux (fuel + 1) (c :: cs2) = findVarsAux fuel cs2 := by
          simp only [findVarsAux, hm]
        have hlen2 : cs2.length ≤ fuel := by
          have := hcs
          simp only [List.length_cons] at this
          omega
        rw [hL, ih cs2 hlen2]
        have h0 : specMatchToken (c :: cs2) = none := by
          rw [specMatchToken_eq, hm]
          rfl
        rw [show (c :: cs2).length = cs2.length + 1 from rfl, List.range_succ_eq_map]
        simp only [List.filterMap_cons, List.drop_zero, h0]
        rw [List.filterMap_map]
        rfl
      | some val =>
        obtain ⟨n, k, rest⟩ := val
        obtain ⟨hdec, hn0, hnall, hk0, hkall⟩ := matchVarAt_some hm
        have hinner : c :: cs2 = '$' :: (('{' :: n.data ++ '.' :: k.data ++ ['}']) ++ rest) := by
          rw [hdec]
          simp
        have htok : c :: cs2 = ('$' :: '{' :: n.data ++ '.' :: k.data ++ ['}']) ++ rest := by
          rw [hdec]
          simp
        have htoklen : ('$' :: '{' :: n.data ++ '.' :: k.data ++ ['}']).length =
            n.data.length + k.data.length + 4 := by
          simp
          omega
        have hlen2 : (c :: cs2).length = (n.data.length + k.data.length + 4) + rest.length := by
          rw [htok, List.length_append, htoklen]
        have hrest_fuel : rest.length ≤ fuel := by
          have := hcs
          rw [hlen2] at this
          omega
        have hL : findVarsAux (fuel + 1) (c :: cs2) = (n, k) :: findVarsAux fuel rest := by
          simp only [findVarsAux, hm]
        rw [hL, ih rest hrest_fuel, hlen2, List.range_add, List.filterMap_append]
        have hpart2 : List.filterMap (fun i => specMatchToken ((c :: cs2).drop i))
            ((List.range rest.length).map (fun x => n.data.length + k.data.length + 4 + x)) =
            List.filterMap (fun i => specMatchToken (rest.drop i)) (List.range rest.length) := by
          rw [List.filterMap_map]
          congr 1
          funext j
          show specMatchToken ((c :: cs2).drop (n.data.length + k.data.length + 4 + j)) =
            specMatchToken (rest.drop j)
          rw [htok, ← List.drop_drop, List.drop_left' htoklen]
        have hinno : ∀ x ∈ '{' :: n.data ++ '.' :: k.data ++ ['}'], x ≠ '$' := by
          intro x hx
          simp only [List.mem_cons, List.mem_append, List.mem_singleton] at hx
          rcases hx with ((hx | hx) | hx | hx) | hx | hx
          · subst hx
            decide
          · exact nameChar_ne_dollar (hnall x hx)
          · subst hx
            decide
          · exact keyChar_ne_dollar (hkall x hx)
          · subst hx
            decide
          · exact absurd hx (List.not_mem_nil x)
        have hinlen : ('{' :: n.data ++ '.' :: k.data ++ ['}']).length =
            n.data.length + k.data.length + 3 := by
          simp
          omega
        have hpart1 : List.filterMap (fun i => specMatchToken ((c :: cs2).drop i))
            (List.range (n.data.length + k.data.length + 4)) = [(n, k)] := by
          have h0 : specMatchToken (c :: cs2) = some (n, k) := by
            rw [specMatchToken_eq, hm]
            rfl
          rw [show n.data.length + k.data.length + 4 = (n.data.length + k.data.length + 3) + 1
            from by omega]
          rw [List.range_succ_eq_map]
          simp only [List.filterMap_cons, List.drop_zero, h0]
          rw [List.filterMap_map]
          have hnil : List.filterMap ((fun i => specMatchToken ((c :: cs2).drop i)) ∘ Nat.succ)
              (List.range (n.data.length + k.data.length + 3)) = [] := by
            rw [List.filterMap_eq_nil_iff]
            intro j hj
            rw [List.mem_range] at hj
            show specMatchToken ((c :: cs2).drop (Nat.succ j)) = none
            rw [hinner]
            show specMatchToken ((('{' :: n.data ++ '.' :: k.data ++ ['}']) ++ rest).drop j) = none
            exact specMatchToken_inside hinno j (by rw [hinlen]; omega)
          rw [hnil]
        rw [hpart1, hpart2]
        rfl

theorem find_variables_eq_spec (s : String) : find_variables s = specFindVariables s :=
  findVarsAux_spec s.data.length s.data (Nat.le_refl _)


/-- C4: `find_variables` returns exactly the (NAME, KEY) pairs of the
substrings matching `${NAME.KEY}` with NAME in `[A-Z0-9_]+` and KEY in
`[a-zA-Z0-9_.]+`, in left-to-right order of occurrence, one pair per
occurrence (duplicates kept), and the empty sequence on text without a
match: it agrees with the spec-side collect-at-every-position scan, and
with the spec's concrete examples. -/
theorem find_variables_spec :
    (∀ s : String, find_variables s = specFindVariables s)
    ∧ find_variables "QUESTION: $\x7bRETRIEVE.question\x7d\nANSWER: $\x7bDATA.answer\x7d" =
        [("RETRIEVE", "question"), ("DATA", "answer")]
    ∧ find_variables "no variables here" = []
    ∧ find_variables "$\x7bA.b\x7d $\x7bA.b\x7d" = [("A", "b"), ("A", "b")] :=
  ⟨find_variables_eq_spec, by decide, by decide, by decide⟩

end DustBlock
